import Mathlib

/-!
Verification of the jcache BoltDB storage backend
(`server/storage/boltdb/storage.go`) against the `Item` model of the storage
package. Instants are modelled as `Nat` (seconds); `0` models Go's zero
`time.Time`. The bolt bucket is modelled as an association list from keys to
encoded records; each contract operation returns its result together with the
bucket contents after the transaction (an error return rolls the write
transaction back, so the bucket is unchanged on every error path).
-/

namespace JCache

/-- The tagged value held in `Item.Value` (`interface\x7b\x7d` in Go): a
string, a `Hash` (`map[string]string`, modelled as an association list of
fields), or a list. -/
inductive Value : Type
  | str : String → Value
  | hash : List (String × String) → Value
  | list : List String → Value
  deriving DecidableEq

/-- A hash value: association list from field names to values. -/
abbrev Hash := List (String × String)

/-- The error vocabulary of package `storage`, plus the boltdb backend's
`notSupportedError` and a gob decode failure. -/
inductive Err : Type
  | keyNotExists
  | keyAlreadyExists
  | listEmpty
  | fieldNotExist
  | keyStringType
  | keyHashType
  | keyListType
  | notSupported
  | decodeError
  deriving DecidableEq

/-- Go `storage.Item`: a tagged value plus an absolute expiration instant;
`expireTime = 0` models the zero `time.Time` (`IsZero`). -/
structure Item : Type where
  value : Value
  expireTime : Nat
  deriving DecidableEq

/-- Go `getExpireTime(ttl)` evaluated when `time.Now()` is `now`: zero time
for `ttl = 0`, otherwise `now + ttl`. -/
def getExpireTime (now ttl : Nat) : Nat :=
  if 0 < ttl then now + ttl else 0

/-- Go `NewItem(value, ttl)` created when `time.Now()` is `now`. -/
def NewItem (now : Nat) (value : Value) (ttl : Nat) : Item :=
  ⟨value, getExpireTime now ttl⟩

/-- Go `Item.IsAlive()` read when `time.Now()` is `now`:
`ExpireTime.IsZero() || ExpireTime.After(now)`. -/
def Item.isAlive (i : Item) (now : Nat) : Bool :=
  i.expireTime = 0 || now < i.expireTime

/-- Go `Item.SetTTL(ttl)` called when `time.Now()` is `now`. -/
def Item.setTTL (i : Item) (now ttl : Nat) : Item :=
  { i with expireTime := getExpireTime now ttl }

/-- Go `Item.CastString()`. -/
def Item.castString (i : Item) : Except Err String :=
  match i.value with
  | .str s => .ok s
  | _ => .error .keyStringType

/-- Go `Item.CastHash()`. -/
def Item.castHash (i : Item) : Except Err Hash :=
  match i.value with
  | .hash h => .ok h
  | _ => .error .keyHashType

/-- Go `Item.CastList()`. -/
def Item.castList (i : Item) : Except Err (List String) :=
  match i.value with
  | .list l => .ok l
  | _ => .error .keyListType

/-- A record stored in the bolt bucket: gob-encoded bytes. A blob is either
the faithful encoding of an `Item` (gob round-trips the registered `Item` and
`Hash` types losslessly) or bytes on which `Decode` fails. -/
inductive Blob : Type
  | good : Item → Blob
  | corrupt : Blob
  deriving DecidableEq

/-- gob encoding of an `Item` (`gob.NewEncoder` + `Encode`). -/
def encode (i : Item) : Blob := .good i

/-- gob decoding of a stored record (`gob.NewDecoder` + `Decode`). -/
def decode : Blob → Except Err Item
  | .good i => .ok i
  | .corrupt => .error .decodeError

/-- The default bolt bucket: association list from keys to stored records. -/
abbrev Store := List (String × Blob)

/-- Bolt `bucket.Get`. -/
def bucketGet : Store → String → Option Blob
  | [], _ => none
  | (k1, b) :: rest, k => if k1 = k then some b else bucketGet rest k

/-- Bolt `bucket.Put`: replace the record under the key, or append it. -/
def bucketPut : Store → String → Blob → Store
  | [], k, b => [(k, b)]
  | (k1, b1) :: rest, k, b =>
      if k1 = k then (k, b) :: rest else (k1, b1) :: bucketPut rest k b

/-- Bolt `bucket.Delete`. -/
def bucketDelete : Store → String → Store
  | [], _ => []
  | (k1, b1) :: rest, k =>
      if k1 = k then bucketDelete rest k else (k1, b1) :: bucketDelete rest k

/-- Keys of the bucket are pairwise distinct (bolt bucket invariant). -/
def keysNodup (st : Store) : Prop :=
  (st.map Prod.fst).Nodup

/-- Go boltdb `storage.getItem` read when `time.Now()` is `now`: absent key or
dead item give `KeyNotExistsError`; a record that fails to decode gives the
decode error. -/
def getItem (now : Nat) (st : Store) (k : String) : Except Err Item :=
  match bucketGet st k with
  | none => .error .keyNotExists
  | some b =>
    match decode b with
    | .error e => .error e
    | .ok item => if item.isAlive now then .ok item else .error .keyNotExists

/-- Go boltdb `storage.saveItem`. -/
def saveItem (st : Store) (k : String) (i : Item) : Store :=
  bucketPut st k (encode i)

/-- Modelled from the spec: `Hash.GetValue` of the storage package (its source
file is not among the provided sources). Per the contract table, reading a
hash field yields the field value, or FieldNotExist when the field is
absent. -/
def hashGetValue : Hash → String → Except Err String
  | [], _ => .error .fieldNotExist
  | (f1, v) :: rest, f => if f1 = f then .ok v else hashGetValue rest f

/-- Go `hash[field] = value`: upsert the field. -/
def hashPut : Hash → String → String → Hash
  | [], f, v => [(f, v)]
  | (f1, v1) :: rest, f, v =>
      if f1 = f then (f, v) :: rest else (f1, v1) :: hashPut rest f v

/-- Go `delete(hash, field)`. -/
def hashRemove : Hash → String → Hash
  | [], _ => []
  | (f1, v1) :: rest, f =>
      if f1 = f then hashRemove rest f else (f1, v1) :: hashRemove rest f

/-- Go boltdb `storage.Get`. -/
def Get (now : Nat) (st : Store) (k : String) : Except Err String :=
  match getItem now st k with
  | .error e => .error e
  | .ok item => item.castString

/-- Go boltdb `storage.Set`: `KeyAlreadyExistsError` when `getItem` yields a
(live) item, otherwise store a fresh string item. -/
def Set (now : Nat) (st : Store) (k v : String) (ttl : Nat) :
    Except Err Unit × Store :=
  match getItem now st k with
  | .ok _ => (.error .keyAlreadyExists, st)
  | .error _ => (.ok (), saveItem st k (NewItem now (.str v) ttl))

/-- Go boltdb `storage.Update`: overwrite the item's value with a string,
keeping its expire time, whatever its previous variant. -/
def Update (now : Nat) (st : Store) (k v : String) : Except Err Unit × Store :=
  match getItem now st k with
  | .error e => (.error e, st)
  | .ok item => (.ok (), saveItem st k { item with value := .str v })

/-- Go boltdb `storage.Delete`. -/
def Delete (now : Nat) (st : Store) (k : String) : Except Err Unit × Store :=
  match getItem now st k with
  | .error e => (.error e, st)
  | .ok _ => (.ok (), bucketDelete st k)

/-- Go boltdb `storage.Expire`. -/
def Expire (now : Nat) (st : Store) (k : String) (ttl : Nat) :
    Except Err Unit × Store :=
  match getItem now st k with
  | .error e => (.error e, st)
  | .ok item => (.ok (), saveItem st k (item.setTTL now ttl))

/-- Go boltdb `storage.HashCreate`. -/
def HashCreate (now : Nat) (st : Store) (k : String) (ttl : Nat) :
    Except Err Unit × Store :=
  match getItem now st k with
  | .ok _ => (.error .keyAlreadyExists, st)
  | .error _ => (.ok (), saveItem st k (NewItem now (.hash []) ttl))

/-- Go boltdb `storage.getHash`. -/
def getHash (now : Nat) (st : Store) (k : String) : Except Err Hash :=
  match getItem now st k with
  | .error e => .error e
  | .ok item => item.castHash

/-- Go boltdb `storage.HashGet`. -/
def HashGet (now : Nat) (st : Store) (k f : String) : Except Err String :=
  match getHash now st k with
  | .error e => .error e
  | .ok h => hashGetValue h f

/-- Go boltdb `storage.HashGetAll`. -/
def HashGetAll (now : Nat) (st : Store) (k : String) : Except Err Hash :=
  getHash now st k

/-- Go boltdb `storage.HashSet`: when `getItem` fails (absent, dead or
undecodable key) a fresh permanent hash item is used instead; a live non-hash
item fails the cast and nothing is stored. -/
def HashSet (now : Nat) (st : Store) (k f v : String) :
    Except Err Unit × Store :=
  let item :=
    match getItem now st k with
    | .error _ => NewItem now (.hash []) 0
    | .ok it => it
  match item.castHash with
  | .error e => (.error e, st)
  | .ok hsh => (.ok (), saveItem st k { item with value := .hash (hashPut hsh f v) })

/-- Go boltdb `storage.HashDelete`. -/
def HashDelete (now : Nat) (st : Store) (k f : String) :
    Except Err Unit × Store :=
  match getItem now st k with
  | .error e => (.error e, st)
  | .ok item =>
    match item.castHash with
    | .error e => (.error e, st)
    | .ok h =>
      match hashGetValue h f with
      | .error e => (.error e, st)
      | .ok _ => (.ok (), saveItem st k { item with value := .hash (hashRemove h f) })

/-- Go boltdb `storage.HashLen`. -/
def HashLen (now : Nat) (st : Store) (k : String) : Except Err Nat :=
  match getHash now st k with
  | .error e => .error e
  | .ok h => .ok h.length

/-- Go boltdb `storage.HashKeys`: the hash's field names, sorted
(`sort.Strings`). -/
def HashKeys (now : Nat) (st : Store) (k : String) : Except Err (List String) :=
  match getHash now st k with
  | .error e => .error e
  | .ok h => .ok (List.insertionSort (fun a b => a ≤ b) (h.map Prod.fst))

/-- Go boltdb `storage.ListCreate`: unconditionally not supported. -/
def ListCreate (st : Store) (k : String) (ttl : Nat) :
    Except Err Unit × Store :=
  (.error .notSupported, st)

/-- Go boltdb `storage.ListLeftPop`: unconditionally not supported. -/
def ListLeftPop (st : Store) (k : String) : Except Err String × Store :=
  (.error .notSupported, st)

/-- Go boltdb `storage.ListRightPop`: unconditionally not supported. -/
def ListRightPop (st : Store) (k : String) : Except Err String × Store :=
  (.error .notSupported, st)

/-- Go boltdb `storage.ListLeftPush`: unconditionally not supported. -/
def ListLeftPush (st : Store) (k v : String) : Except Err Unit × Store :=
  (.error .notSupported, st)

/-- Go boltdb `storage.ListRightPush`: unconditionally not supported. -/
def ListRightPush (st : Store) (k v : String) : Except Err Unit × Store :=
  (.error .notSupported, st)

/-- Go boltdb `storage.ListLen`: unconditionally not supported. -/
def ListLen (st : Store) (k : String) : Except Err Nat × Store :=
  (.error .notSupported, st)

/-- Go boltdb `storage.ListRange`: unconditionally not supported. -/
def ListRange (st : Store) (k : String) (start stop : Int) :
    Except Err (List String) × Store :=
  (.error .notSupported, st)

/-- Read pass of one cycle of Go `storage.gc`: scan every record in cursor
order, decode it, and collect the keys whose items are not alive; the first
decode failure aborts the scan with that error. -/
def scanDead (now : Nat) : Store → Except Err (List String)
  | [] => .ok []
  | (k, b) :: rest =>
    match decode b with
    | .error e => .error e
    | .ok item =>
      match scanDead now rest with
      | .error e => .error e
      | .ok ks => .ok (if item.isAlive now then ks else k :: ks)

/-- One cycle of Go `storage.gc`: when the scan succeeds, delete exactly the
collected keys in one write transaction; when it fails, delete nothing. -/
def gcCycle (now : Nat) (st : Store) : Store :=
  match scanDead now st with
  | .error _ => st
  | .ok ks => ks.foldl bucketDelete st

/-- The key holds a record that decodes to an item alive at `now`. -/
def alivePresent (now : Nat) (st : Store) (k : String) : Prop :=
  ∃ i : Item, bucketGet st k = some (.good i) ∧ i.isAlive now = true

/-- The key is absent from the bucket, or holds a record that decodes to an
item that is dead at `now`. -/
def absentOrDead (now : Nat) (st : Store) (k : String) : Prop :=
  bucketGet st k = none ∨
    ∃ i : Item, bucketGet st k = some (.good i) ∧ i.isAlive now = false

/-! ### Bucket lemmas -/

theorem bucketGet_put_self (st : Store) (k : String) (b : Blob) :
    bucketGet (bucketPut st k b) k = some b := by
  induction st with
  | nil => simp [bucketPut, bucketGet]
  | cons p rest ih =>
    obtain ⟨k1, b1⟩ := p
    by_cases h : k1 = k
    · simp [bucketPut, h, bucketGet]
    · simp [bucketPut, h, bucketGet, ih]

theorem bucketGet_put_ne (st : Store) (k k1 : String) (b : Blob)
    (h : k1 ≠ k) : bucketGet (bucketPut st k b) k1 = bucketGet st k1 := by
  induction st with
  | nil => simp [bucketPut, bucketGet, Ne.symm h]
  | cons p rest ih =>
    obtain ⟨k2, b2⟩ := p
    by_cases h2 : k2 = k
    · subst h2
      simp [bucketPut, bucketGet, Ne.symm h]
    · by_cases h3 : k2 = k1 <;> simp [bucketPut, bucketGet, h2, h3, ih, h]

theorem bucketGet_delete_self (st : Store) (k : String) :
    bucketGet (bucketDelete st k) k = none := by
  induction st with
  | nil => simp [bucketDelete, bucketGet]
  | cons p rest ih =>
    obtain ⟨k1, b1⟩ := p
    by_cases h : k1 = k <;> simp [bucketDelete, bucketGet, h, ih]

theorem bucketGet_delete_ne (st : Store) (k k1 : String) (h : k1 ≠ k) :
    bucketGet (bucketDelete st k) k1 = bucketGet st k1 := by
  induction st with
  | nil => simp [bucketDelete]
  | cons p rest ih =>
    obtain ⟨k2, b2⟩ := p
    by_cases h2 : k2 = k
    · subst h2
      simp [bucketDelete, bucketGet, Ne.symm h, ih]
    · by_cases h3 : k2 = k1 <;> simp [bucketDelete, bucketGet, h2, h3, ih, h]

theorem mem_keys_bucketPut (st : Store) (k k1 : String) (b : Blob) :
    k1 ∈ (bucketPut st k b).map Prod.fst ↔
      k1 = k ∨ k1 ∈ st.map Prod.fst := by
  induction st with
  | nil => simp [bucketPut]
  | cons p rest ih =>
    obtain ⟨k2, b2⟩ := p
    by_cases h2 : k2 = k <;> simp [bucketPut, h2, ih] <;> tauto

theorem mem_keys_bucketDelete (st : Store) (k k1 : String)
    (h : k1 ∈ (bucketDelete st k).map Prod.fst) : k1 ∈ st.map Prod.fst := by
  induction st with
  | nil => simpa [bucketDelete] using h
  | cons p rest ih =>
    obtain ⟨k2, b2⟩ := p
    by_cases h2 : k2 = k
    · simp only [bucketDelete, h2, if_true] at h
      simp only [List.map_cons, List.mem_cons]
      exact Or.inr (ih h)
    · simp only [bucketDelete, h2, if_false, List.map_cons, List.mem_cons] at h
      rcases h with h | h
      · simp [h]
      · simp only [List.map_cons, List.mem_cons]
        exact Or.inr (ih h)

theorem keysNodup_bucketPut (st : Store) (k : String) (b : Blob)
    (h : keysNodup st) : keysNodup (bucketPut st k b) := by
  induction st with
  | nil => simp [bucketPut, keysNodup]
  | cons p rest ih =>
    obtain ⟨k1, b1⟩ := p
    simp only [keysNodup, List.map_cons, List.nodup_cons] at h
    by_cases h2 : k1 = k
    · subst h2
      simp only [bucketPut, if_true, keysNodup, List.map_cons, List.nodup_cons]
      exact h
    · simp only [bucketPut, h2, if_false, keysNodup, List.map_cons,
        List.nodup_cons]
      refine ⟨?_, ih h.2⟩
      intro hmem
      rcases (mem_keys_bucketPut rest k k1 b).1 hmem with h3 | h3
      · exact h2 h3
      · exact h.1 h3

theorem keysNodup_bucketDelete (st : Store) (k : String)
    (h : keysNodup st) : keysNodup (bucketDelete st k) := by
  induction st with
  | nil => simp [bucketDelete, keysNodup]
  | cons p rest ih =>
    obtain ⟨k1, b1⟩ := p
    simp only [keysNodup, List.map_cons, List.nodup_cons] at h
    by_cases h2 : k1 = k
    · simp only [bucketDelete, h2, if_true]
      exact ih h.2
    · simp only [bucketDelete, h2, if_false, keysNodup, List.map_cons,
        List.nodup_cons]
      exact ⟨fun hmem => h.1 (mem_keys_bucketDelete rest k k1 hmem), ih h.2⟩

theorem mem_of_bucketGet_eq_some (st : Store) (k : String) (b : Blob)
    (h : bucketGet st k = some b) : (k, b) ∈ st := by
  induction st with
  | nil => simp [bucketGet] at h
  | cons p rest ih =>
    obtain ⟨k1, b1⟩ := p
    by_cases h2 : k1 = k
    · subst h2
      simp only [bucketGet, if_true] at h
      cases h
      exact List.mem_cons_self _ _
    · simp only [bucketGet, h2, if_false] at h
      exact List.mem_cons_of_mem _ (ih h)

theorem bucketGet_eq_some_of_mem (st : Store) (k : String) (b : Blob)
    (hnd : keysNodup st) (h : (k, b) ∈ st) : bucketGet st k = some b := by
  induction st with
  | nil => simp at h
  | cons p rest ih =>
    obtain ⟨k1, b1⟩ := p
    simp only [keysNodup, List.map_cons, List.nodup_cons] at hnd
    rcases List.mem_cons.1 h with h2 | h2
    · cases h2
      simp [bucketGet]
    · by_cases h3 : k1 = k
      · subst h3
        exact absurd (List.mem_map_of_mem Prod.fst h2) hnd.1
      · simp only [bucketGet, h3, if_false]
        exact ih hnd.2 h2

/-! ### getItem lemmas -/

theorem getItem_eq_ok_iff (now : Nat) (st : Store) (k : String) (i : Item) :
    getItem now st k = .ok i ↔
      bucketGet st k = some (.good i) ∧ i.isAlive now = true := by
  unfold getItem
  cases hb : bucketGet st k with
  | none => simp
  | some b =>
    cases b with
    | good j =>
      simp only [decode]
      by_cases ha : j.isAlive now
      · simp only [ha, if_true]
        constructor
        · intro h
          cases h
          exact ⟨rfl, ha⟩
        · rintro ⟨h1, _⟩
          cases h1
          rfl
      · simp only [ha, if_false]
        constructor
        · intro h
          cases h
        · rintro ⟨h1, h2⟩
          cases h1
          exact absurd h2 ha
    | corrupt => simp [decode]

theorem getItem_eq_keyNotExists_iff (now : Nat) (st : Store) (k : String) :
    getItem now st k = .error .keyNotExists ↔ absentOrDead now st k := by
  unfold getItem absentOrDead
  cases hb : bucketGet st k with
  | none => simp
  | some b =>
    cases b with
    | good j =>
      simp only [decode]
      by_cases ha : j.isAlive now
      · simp only [ha, if_true]
        constructor
        · intro h
          cases h
        · rintro (h | ⟨i, hi, hdead⟩)
          · cases h
          · cases hi
            rw [ha] at hdead
            cases hdead
      · rw [if_neg ha]
        simp only [eq_self_iff_true, true_iff]
        refine Or.inr ⟨j, rfl, ?_⟩
        simpa using ha
    | corrupt =>
      simp only [decode]
      constructor
      · intro h
        cases h
      · rintro (h | ⟨i, hi, _⟩)
        · cases h
        · cases hi

theorem getItem_corrupt (now : Nat) (st : Store) (k : String)
    (h : bucketGet st k = some .corrupt) :
    getItem now st k = .error .decodeError := by
  unfold getItem
  rw [h]
  rfl

theorem alivePresent_iff_getItem_ok (now : Nat) (st : Store) (k : String) :
    alivePresent now st k ↔ ∃ i, getItem now st k = .ok i := by
  unfold alivePresent
  constructor
  · rintro ⟨i, h1, h2⟩
    exact ⟨i, (getItem_eq_ok_iff now st k i).2 ⟨h1, h2⟩⟩
  · rintro ⟨i, h⟩
    obtain ⟨h1, h2⟩ := (getItem_eq_ok_iff now st k i).1 h
    exact ⟨i, h1, h2⟩

/-! ### gc lemmas -/

theorem mem_scanDead (now : Nat) (st : Store) (ks : List String)
    (h : scanDead now st = .ok ks) (k : String) :
    k ∈ ks ↔ ∃ i : Item, (k, Blob.good i) ∈ st ∧ i.isAlive now = false := by
  induction st generalizing ks with
  | nil =>
    simp only [scanDead] at h
    cases h
    simp
  | cons p rest ih =>
    obtain ⟨k1, b1⟩ := p
    cases b1 with
    | corrupt => simp [scanDead, decode] at h
    | good j =>
      simp only [scanDead, decode] at h
      cases hrest : scanDead now rest with
      | error e => rw [hrest] at h; simp at h
      | ok ks1 =>
        rw [hrest] at h
        by_cases ha : j.isAlive now
        · simp [ha] at h
          subst h
          rw [ih ks1 hrest]
          constructor
          · rintro ⟨i, hi, hdead⟩
            exact ⟨i, List.mem_cons_of_mem _ hi, hdead⟩
          · rintro ⟨i, hi, hdead⟩
            rcases List.mem_cons.1 hi with h2 | h2
            · cases h2
              rw [ha] at hdead
              cases hdead
            · exact ⟨i, h2, hdead⟩
        · simp [ha] at h
          subst h
          rw [List.mem_cons, ih ks1 hrest]
          constructor
          · rintro (h2 | ⟨i, hi, hdead⟩)
            · subst h2
              exact ⟨j, List.mem_cons_self _ _, by simpa using ha⟩
            · exact ⟨i, List.mem_cons_of_mem _ hi, hdead⟩
          · rintro ⟨i, hi, hdead⟩
            rcases List.mem_cons.1 hi with h2 | h2
            · cases h2
              exact Or.inl rfl
            · exact Or.inr ⟨i, h2, hdead⟩

theorem bucketGet_foldl_delete (ks : List String) (st : Store) (k : String) :
    bucketGet (ks.foldl bucketDelete st) k =
      if k ∈ ks then none else bucketGet st k := by
  induction ks generalizing st with
  | nil => simp
  | cons k1 rest ih =>
    simp only [List.foldl_cons, ih, List.mem_cons]
    by_cases h : k ∈ rest
    · simp [h]
    · by_cases h2 : k = k1
      · subst h2
        simp [h, bucketGet_delete_self]
      · simp [h, h2, bucketGet_delete_ne st k1 k h2]

theorem gcCycle_preserves_alive (now : Nat) (st : Store) (k : String)
    (i : Item) (hnd : keysNodup st)
    (hget : bucketGet st k = some (.good i)) (ha : i.isAlive now = true) :
    bucketGet (gcCycle now st) k = some (.good i) := by
  unfold gcCycle
  cases hscan : scanDead now st with
  | error e => exact hget
  | ok ks =>
    rw [bucketGet_foldl_delete]
    have hnot : k ∉ ks := by
      intro hmem
      obtain ⟨i1, hi1, hdead⟩ := (mem_scanDead now st ks hscan k).1 hmem
      have := bucketGet_eq_some_of_mem st k (.good i1) hnd hi1
      rw [hget] at this
      cases this
      rw [ha] at hdead
      cases hdead
    rw [if_neg hnot]
    exact hget

theorem gcCycle_deletes_dead (now : Nat) (st : Store) (ks : List String)
    (hscan : scanDead now st = .ok ks) (k : String) :
    bucketGet (gcCycle now st) k = if k ∈ ks then none else bucketGet st k := by
  unfold gcCycle
  rw [hscan]
  exact bucketGet_foldl_delete ks st k

theorem gcCycle_aborts (now : Nat) (st : Store) (e : Err)
    (hscan : scanDead now st = .error e) : gcCycle now st = st := by
  unfold gcCycle
  rw [hscan]

theorem keysNodup_foldl_delete (ks : List String) (st : Store)
    (h : keysNodup st) : keysNodup (ks.foldl bucketDelete st) := by
  induction ks generalizing st with
  | nil => exact h
  | cons k1 rest ih =>
    simp only [List.foldl_cons]
    exact ih _ (keysNodup_bucketDelete st k1 h)

theorem keysNodup_gcCycle (now : Nat) (st : Store) (h : keysNodup st) :
    keysNodup (gcCycle now st) := by
  unfold gcCycle
  cases scanDead now st with
  | error e => exact h
  | ok ks => exact keysNodup_foldl_delete ks st h

/-! ### Client operations as a transition system -/

/-- One mutating call to the boltdb storage together with its arguments, plus
one background sweep cycle; used to state persistence of a stored key across
subsequent activity (pure reads never change the bucket and are omitted). -/
inductive Op : Type
  | set : String → String → Nat → Op
  | update : String → String → Op
  | del : String → Op
  | expire : String → Nat → Op
  | hashCreate : String → Nat → Op
  | hashSet : String → String → String → Op
  | hashDelete : String → String → Op
  | listAny : Op
  | sweep : Op

/-- Effect of one operation, executed when `time.Now()` is `now`, on the
bucket. -/
def applyOp (now : Nat) (st : Store) : Op → Store
  | .set k v ttl => (Set now st k v ttl).2
  | .update k v => (Update now st k v).2
  | .del k => (Delete now st k).2
  | .expire k ttl => (Expire now st k ttl).2
  | .hashCreate k ttl => (HashCreate now st k ttl).2
  | .hashSet k f v => (HashSet now st k f v).2
  | .hashDelete k f => (HashDelete now st k f).2
  | .listAny => st
  | .sweep => gcCycle now st

/-- Effect of a sequence of operations, each tagged with its instant. -/
def applyOps (st : Store) : List (Nat × Op) → Store
  | [] => st
  | (now, op) :: rest => applyOps (applyOp now st op) rest

/-- The operation is one of the three calls that rewrite the record stored
under key `k` when the key is alive: `Update`, `Delete` or `Expire` on `k`
(the overwrite and delete paths; every other call leaves a live immortal
string key untouched). -/
def writesKey (k : String) : Op → Bool
  | .update k1 _ => k1 == k
  | .del k1 => k1 == k
  | .expire k1 _ => k1 == k
  | _ => false

theorem immortal_isAlive (val : Value) (now : Nat) :
    Item.isAlive ⟨val, 0⟩ now = true := by
  simp [Item.isAlive]

theorem Get_of_immortal_string (now : Nat) (st : Store) (k v : String)
    (hk : bucketGet st k = some (.good ⟨.str v, 0⟩)) :
    Get now st k = .ok v := by
  have hok : getItem now st k = .ok ⟨.str v, 0⟩ :=
    (getItem_eq_ok_iff now st k ⟨.str v, 0⟩).2 ⟨hk, immortal_isAlive _ now⟩
  simp only [Get, hok, Item.castString]

theorem applyOp_preserves_immortal_string (k v : String) (now : Nat)
    (op : Op) (st : Store) (hnd : keysNodup st)
    (hk : bucketGet st k = some (.good ⟨.str v, 0⟩))
    (hw : writesKey k op = false) :
    keysNodup (applyOp now st op) ∧
      bucketGet (applyOp now st op) k = some (.good ⟨.str v, 0⟩) := by
  have hok : getItem now st k = .ok ⟨.str v, 0⟩ :=
    (getItem_eq_ok_iff now st k ⟨.str v, 0⟩).2 ⟨hk, immortal_isAlive _ now⟩
  cases op with
  | set k1 v1 ttl =>
    cases hgi : getItem now st k1 with
    | ok it =>
      simp only [applyOp, Set, hgi]
      exact ⟨hnd, hk⟩
    | error e =>
      by_cases hkk : k1 = k
      · subst hkk
        rw [hok] at hgi
        cases hgi
      · constructor
        · simp only [applyOp, Set, hgi]
          exact keysNodup_bucketPut st k1 _ hnd
        · simp only [applyOp, Set, hgi, saveItem]
          rw [bucketGet_put_ne st k1 k _ (Ne.symm hkk)]
          exact hk
  | update k1 v1 =>
    have hkk : k1 ≠ k := by simpa [writesKey] using hw
    cases hgi : getItem now st k1 with
    | error e =>
      simp only [applyOp, Update, hgi]
      exact ⟨hnd, hk⟩
    | ok it =>
      constructor
      · simp only [applyOp, Update, hgi]
        exact keysNodup_bucketPut st k1 _ hnd
      · simp only [applyOp, Update, hgi, saveItem]
        rw [bucketGet_put_ne st k1 k _ (Ne.symm hkk)]
        exact hk
  | del k1 =>
    have hkk : k1 ≠ k := by simpa [writesKey] using hw
    cases hgi : getItem now st k1 with
    | error e =>
      simp only [applyOp, Delete, hgi]
      exact ⟨hnd, hk⟩
    | ok it =>
      constructor
      · simp only [applyOp, Delete, hgi]
        exact keysNodup_bucketDelete st k1 hnd
      · simp only [applyOp, Delete, hgi]
        rw [bucketGet_delete_ne st k1 k (Ne.symm hkk)]
        exact hk
  | expire k1 ttl =>
    have hkk : k1 ≠ k := by simpa [writesKey] using hw
    cases hgi : getItem now st k1 with
    | error e =>
      simp only [applyOp, Expire, hgi]
      exact ⟨hnd, hk⟩
    | ok it =>
      constructor
      · simp only [applyOp, Expire, hgi]
        exact keysNodup_bucketPut st k1 _ hnd
      · simp only [applyOp, Expire, hgi, saveItem]
        rw [bucketGet_put_ne st k1 k _ (Ne.symm hkk)]
        exact hk
  | hashCreate k1 ttl =>
    cases hgi : getItem now st k1 with
    | ok it =>
      simp only [applyOp, HashCreate, hgi]
      exact ⟨hnd, hk⟩
    | error e =>
      by_cases hkk : k1 = k
      · subst hkk
        rw [hok] at hgi
        cases hgi
      · constructor
        · simp only [applyOp, HashCreate, hgi]
          exact keysNodup_bucketPut st k1 _ hnd
        · simp only [applyOp, HashCreate, hgi, saveItem]
          rw [bucketGet_put_ne st k1 k _ (Ne.symm hkk)]
          exact hk
  | hashSet k1 f1 v1 =>
    by_cases hkk : k1 = k
    · subst hkk
      simp only [applyOp, HashSet, hok, Item.castHash]
      exact ⟨hnd, hk⟩
    · cases hgi : getItem now st k1 with
      | error e =>
        constructor
        · simp only [applyOp, HashSet, hgi, NewItem, Item.castHash]
          exact keysNodup_bucketPut st k1 _ hnd
        · simp only [applyOp, HashSet, hgi, NewItem, Item.castHash, saveItem]
          rw [bucketGet_put_ne st k1 k _ (Ne.symm hkk)]
          exact hk
      | ok it =>
        cases hch : it.castHash with
        | error e =>
          simp only [applyOp, HashSet, hgi, hch]
          exact ⟨hnd, hk⟩
        | ok hsh =>
          constructor
          · simp only [applyOp, HashSet, hgi, hch]
            exact keysNodup_bucketPut st k1 _ hnd
          · simp only [applyOp, HashSet, hgi, hch, saveItem]
            rw [bucketGet_put_ne st k1 k _ (Ne.symm hkk)]
            exact hk
  | hashDelete k1 f1 =>
    by_cases hkk : k1 = k
    · subst hkk
      simp only [applyOp, HashDelete, hok, Item.castHash]
      exact ⟨hnd, hk⟩
    · cases hgi : getItem now st k1 with
      | error e =>
        simp only [applyOp, HashDelete, hgi]
        exact ⟨hnd, hk⟩
      | ok it =>
        cases hch : it.castHash with
        | error e =>
          simp only [applyOp, HashDelete, hgi, hch]
          exact ⟨hnd, hk⟩
        | ok hsh =>
          cases hgv : hashGetValue hsh f1 with
          | error e =>
            simp only [applyOp, HashDelete, hgi, hch, hgv]
            exact ⟨hnd, hk⟩
          | ok w =>
            constructor
            · simp only [applyOp, HashDelete, hgi, hch, hgv]
              exact keysNodup_bucketPut st k1 _ hnd
            · simp only [applyOp, HashDelete, hgi, hch, hgv, saveItem]
              rw [bucketGet_put_ne st k1 k _ (Ne.symm hkk)]
              exact hk
  | listAny =>
    simp only [applyOp]
    exact ⟨hnd, hk⟩
  | sweep =>
    simp only [applyOp]
    exact ⟨keysNodup_gcCycle now st hnd,
      gcCycle_preserves_alive now st k _ hnd hk (immortal_isAlive _ now)⟩

theorem applyOps_preserves_immortal_string (k v : String) :
    ∀ (ops : List (Nat × Op)) (st : Store), keysNodup st →
      bucketGet st k = some (.good ⟨.str v, 0⟩) →
      (∀ p ∈ ops, writesKey k p.2 = false) →
      bucketGet (applyOps st ops) k = some (.good ⟨.str v, 0⟩) := by
  intro ops
  induction ops with
  | nil =>
    intro st _ hk _
    exact hk
  | cons p rest ih =>
    intro st hnd hk hw
    obtain ⟨now1, op⟩ := p
    obtain ⟨hnd1, hk1⟩ := applyOp_preserves_immortal_string k v now1 op st hnd
      hk (hw _ (List.mem_cons_self _ _))
    exact ih _ hnd1 hk1 (fun q hq => hw q (List.mem_cons_of_mem _ hq))

theorem getItem_error_cases (now : Nat) (st : Store) (k : String) (e : Err)
    (h : getItem now st k = .error e) :
    e = .keyNotExists ∨ e = .decodeError := by
  unfold getItem at h
  cases hb : bucketGet st k with
  | none =>
    rw [hb] at h
    cases h
    exact Or.inl rfl
  | some b =>
    rw [hb] at h
    cases b with
    | good j =>
      simp only [decode] at h
      by_cases ha : j.isAlive now
      · rw [if_pos ha] at h
        cases h
      · rw [if_neg ha] at h
        cases h
        exact Or.inl rfl
    | corrupt =>
      simp only [decode] at h
      cases h
      exact Or.inr rfl

/-! ### Claim theorems -/

/-- C1: `Set(k, v, t)` with `t > 0` creates an Item whose expiration instant
is `t` seconds after the creation instant; an Item is alive iff its expiration
instant is zero-valued or strictly in the future; hence `Get(k)` returns `v`
at every read instant strictly before `creation + t` and `KeyNotExists` at or
after it. -/
theorem c1_set_ttl_expiry (now0 : Nat) (st : Store) (k v : String) (t : Nat)
    (ht : 0 < t) (hset : (Set now0 st k v t).1 = .ok ()) :
    bucketGet (Set now0 st k v t).2 k = some (encode ⟨.str v, now0 + t⟩) ∧
    (∀ (i : Item) (r : Nat),
      i.isAlive r = true ↔ (i.expireTime = 0 ∨ r < i.expireTime)) ∧
    (∀ r : Nat, r < now0 + t → Get r (Set now0 st k v t).2 k = .ok v) ∧
    (∀ r : Nat, now0 + t ≤ r →
      Get r (Set now0 st k v t).2 k = .error .keyNotExists) := by
  cases hgi : getItem now0 st k with
  | ok it =>
    simp only [Set, hgi] at hset
    cases hset
  | error e =>
    have hst2 : (Set now0 st k v t).2 = saveItem st k (NewItem now0 (.str v) t) := by
      simp only [Set, hgi]
    have hitem : NewItem now0 (.str v) t = ⟨.str v, now0 + t⟩ := by
      simp [NewItem, getExpireTime, ht]
    have hb : bucketGet (Set now0 st k v t).2 k = some (.good ⟨.str v, now0 + t⟩) := by
      rw [hst2, hitem]
      exact bucketGet_put_self st k _
    refine ⟨hb, ?_, ?_, ?_⟩
    · intro i r
      simp [Item.isAlive]
    · intro r hr
      have halive : Item.isAlive ⟨.str v, now0 + t⟩ r = true := by
        simp only [Item.isAlive, Bool.or_eq_true, decide_eq_true_eq]
        omega
      have hok : getItem r (Set now0 st k v t).2 k = .ok ⟨.str v, now0 + t⟩ :=
        (getItem_eq_ok_iff _ _ _ _).2 ⟨hb, halive⟩
      simp only [Get, hok, Item.castString]
    · intro r hr
      have hdead : Item.isAlive ⟨.str v, now0 + t⟩ r = false := by
        simp only [Item.isAlive, Bool.or_eq_false_iff, decide_eq_false_iff_not]
        omega
      have hno : getItem r (Set now0 st k v t).2 k = .error .keyNotExists :=
        (getItem_eq_keyNotExists_iff _ _ _).2 (Or.inr ⟨_, hb, hdead⟩)
      simp only [Get, hno]

/-- C1 witness: with `Set` at instant 10 and ttl 2 on the empty bucket,
`Get` succeeds at instant 11 and fails at instant 12. -/
theorem c1_set_ttl_expiry_witness :
    Get 11 (Set 10 ([] : Store) "k" "v" 2).2 "k" = .ok "v" ∧
    Get 12 (Set 10 ([] : Store) "k" "v" 2).2 "k" = .error .keyNotExists := by
  constructor
  · exact (c1_set_ttl_expiry 10 [] "k" "v" 2 (by decide) rfl).2.2.1 11 (by decide)
  · exact (c1_set_ttl_expiry 10 [] "k" "v" 2 (by decide) rfl).2.2.2 12 (by decide)

/-- C3: `Set` returns KeyAlreadyExists iff the key is present with an alive
Item; on an absent or dead key it succeeds and stores a fresh string Item
(replacing any dead Item); likewise `HashCreate` with a fresh empty hash. -/
theorem c3_create_only_if_dead (now : Nat) (st : Store) (k v : String)
    (ttl : Nat) :
    ((Set now st k v ttl).1 = .error .keyAlreadyExists ↔ alivePresent now st k) ∧
    (absentOrDead now st k →
      (Set now st k v ttl).1 = .ok () ∧
      bucketGet (Set now st k v ttl).2 k = some (encode (NewItem now (.str v) ttl))) ∧
    ((HashCreate now st k ttl).1 = .error .keyAlreadyExists ↔ alivePresent now st k) ∧
    (absentOrDead now st k →
      (HashCreate now st k ttl).1 = .ok () ∧
      bucketGet (HashCreate now st k ttl).2 k = some (encode (NewItem now (.hash []) ttl))) := by
  cases hgi : getItem now st k with
  | ok it =>
    have halive : alivePresent now st k :=
      (alivePresent_iff_getItem_ok now st k).2 ⟨it, hgi⟩
    have hnotdead : ¬absentOrDead now st k := by
      intro h
      rw [← getItem_eq_keyNotExists_iff now st k] at h
      rw [hgi] at h
      cases h
    refine ⟨?_, fun h => absurd h hnotdead, ?_, fun h => absurd h hnotdead⟩
    · simp only [Set, hgi]
      exact ⟨fun _ => halive, fun _ => trivial⟩
    · simp only [HashCreate, hgi]
      exact ⟨fun _ => halive, fun _ => trivial⟩
  | error e =>
    have hnotalive : ¬alivePresent now st k := by
      intro h
      obtain ⟨i, hi⟩ := (alivePresent_iff_getItem_ok now st k).1 h
      rw [hgi] at hi
      cases hi
    constructor
    · simp only [Set, hgi]
      constructor
      · intro h
        cases h
      · intro h
        exact absurd h hnotalive
    refine ⟨?_, ?_, ?_⟩
    · intro _
      constructor
      · simp only [Set, hgi]
      · simp only [Set, hgi, saveItem]
        exact bucketGet_put_self st k _
    · simp only [HashCreate, hgi]
      constructor
      · intro h
        cases h
      · intro h
        exact absurd h hnotalive
    · intro _
      constructor
      · simp only [HashCreate, hgi]
      · simp only [HashCreate, hgi, saveItem]
        exact bucketGet_put_self st k _

/-- C3 witness: on a bucket whose only record under "k" is dead at instant 10,
`Set` succeeds and stores a fresh string Item, and on the same bucket
`HashCreate` succeeds and stores a fresh empty hash Item. -/
theorem c3_create_only_if_dead_witness :
    ((Set 10 [("k", Blob.good ⟨.str "old", 5⟩)] "k" "w" 0).1 = .ok () ∧
      bucketGet (Set 10 [("k", Blob.good ⟨.str "old", 5⟩)] "k" "w" 0).2 "k" =
        some (encode (NewItem 10 (.str "w") 0))) ∧
    ((HashCreate 10 [("k", Blob.good ⟨.str "old", 5⟩)] "k" 0).1 = .ok () ∧
      bucketGet (HashCreate 10 [("k", Blob.good ⟨.str "old", 5⟩)] "k" 0).2 "k" =
        some (encode (NewItem 10 (.hash []) 0))) := by
  have hdead : absentOrDead 10 [("k", Blob.good ⟨.str "old", 5⟩)] "k" :=
    Or.inr ⟨⟨.str "old", 5⟩, rfl, rfl⟩
  exact ⟨(c3_create_only_if_dead 10 _ "k" "w" 0).2.1 hdead,
    (c3_create_only_if_dead 10 _ "k" "w" 0).2.2.2 hdead⟩

/-- C4: in the Durable Store every list operation returns the dedicated
NotSupported error for every key and argument, regardless of the key's state,
and leaves the bucket unchanged. -/
theorem c4_lists_not_supported (st : Store) (k v : String) (ttl : Nat)
    (start stop : Int) :
    ListCreate st k ttl = (.error .notSupported, st) ∧
    ListLeftPop st k = (.error .notSupported, st) ∧
    ListRightPop st k = (.error .notSupported, st) ∧
    ListLeftPush st k v = (.error .notSupported, st) ∧
    ListRightPush st k v = (.error .notSupported, st) ∧
    ListLen st k = (.error .notSupported, st) ∧
    ListRange st k start stop = (.error .notSupported, st) :=
  ⟨rfl, rfl, rfl, rfl, rfl, rfl, rfl⟩

/-- C2: a successful `Set(k, v, 0)` stores a permanent string Item which
`Get(k)` returns at every later instant, and keeps returning through any
sequence of further operations (including sweeps) that contains no
`Delete(k)` and no overwrite of `k`'s record (`Update(k)` / `Expire(k)`);
the serialization round-trip is lossless for every Item, including an
empty hash. -/
theorem c2_set_get_persistence (now0 : Nat) (st : Store) (k v : String)
    (hnd : keysNodup st) (hset : (Set now0 st k v 0).1 = .ok ()) :
    (∀ i : Item, decode (encode i) = .ok i) ∧
    (∀ r : Nat, Get r (Set now0 st k v 0).2 k = .ok v) ∧
    (∀ ops : List (Nat × Op), (∀ p ∈ ops, writesKey k p.2 = false) →
      ∀ r : Nat, Get r (applyOps (Set now0 st k v 0).2 ops) k = .ok v) := by
  cases hgi : getItem now0 st k with
  | ok it =>
    simp only [Set, hgi] at hset
    cases hset
  | error e =>
    have hst2 : (Set now0 st k v 0).2 = saveItem st k (NewItem now0 (.str v) 0) := by
      simp only [Set, hgi]
    have hitem : NewItem now0 (.str v) 0 = ⟨.str v, 0⟩ := by
      simp [NewItem, getExpireTime]
    have hb : bucketGet (Set now0 st k v 0).2 k = some (.good ⟨.str v, 0⟩) := by
      rw [hst2, hitem]
      exact bucketGet_put_self st k _
    have hnd2 : keysNodup (Set now0 st k v 0).2 := by
      rw [hst2]
      exact keysNodup_bucketPut st k _ hnd
    refine ⟨fun i => rfl, ?_, ?_⟩
    · intro r
      exact Get_of_immortal_string r _ k v hb
    · intro ops hops r
      exact Get_of_immortal_string r _ k v
        (applyOps_preserves_immortal_string k v ops _ hnd2 hb hops)

/-- C2 witness: `Set("k","v",0)` on the empty bucket at instant 0, followed by
a `Set` on another key, a `HashSet` on "k" itself (which fails the hash cast
and changes nothing), a failing `Delete` of an absent key and a sweep, still
yields `Get("k") = "v"` at instant 9. -/
theorem c2_set_get_persistence_witness :
    Get 9 (applyOps (Set 0 ([] : Store) "k" "v" 0).2
      [(1, .set "other" "x" 5), (2, .hashSet "k" "f" "z"),
       (3, .del "gone"), (4, .sweep)]) "k" = .ok "v" := by
  exact (c2_set_get_persistence 0 [] "k" "v" (by simp [keysNodup]) rfl).2.2
    [(1, .set "other" "x" 5), (2, .hashSet "k" "f" "z"),
     (3, .del "gone"), (4, .sweep)] (by decide) 9

/-- C5: each sweep cycle collects exactly the keys whose decoded Items are
dead at scan time and then deletes exactly those keys; an Item alive at scan
time is never deleted; a decode failure during the scan aborts the whole
cycle with no deletion at all. -/
theorem c5_gc_cycle (now : Nat) (st : Store) (hnd : keysNodup st) :
    (∀ ks, scanDead now st = .ok ks → ∀ k,
      (k ∈ ks ↔ ∃ i : Item, bucketGet st k = some (.good i) ∧ i.isAlive now = false)) ∧
    (∀ ks, scanDead now st = .ok ks → ∀ k,
      bucketGet (gcCycle now st) k = if k ∈ ks then none else bucketGet st k) ∧
    (∀ (k : String) (i : Item), bucketGet st k = some (.good i) →
      i.isAlive now = true → bucketGet (gcCycle now st) k = some (.good i)) ∧
    (∀ e, scanDead now st = .error e → gcCycle now st = st) := by
  refine ⟨?_, ?_, ?_, ?_⟩
  · intro ks hscan k
    rw [mem_scanDead now st ks hscan k]
    constructor
    · rintro ⟨i, hmem, hdead⟩
      exact ⟨i, bucketGet_eq_some_of_mem st k _ hnd hmem, hdead⟩
    · rintro ⟨i, hget, hdead⟩
      exact ⟨i, mem_of_bucketGet_eq_some st k _ hget, hdead⟩
  · intro ks hscan k
    exact gcCycle_deletes_dead now st ks hscan k
  · intro k i hget halive
    exact gcCycle_preserves_alive now st k i hnd hget halive
  · intro e hscan
    exact gcCycle_aborts now st e hscan

/-- C5 witness: at instant 10, on a bucket with an immortal record "a" and a
record "b" expired at 5, the sweep keeps "a" and deletes "b"; adding a
corrupt record makes the whole cycle abort, deleting nothing. -/
theorem c5_gc_cycle_witness :
    bucketGet (gcCycle 10 [("a", Blob.good ⟨.str "x", 0⟩),
      ("b", Blob.good ⟨.str "y", 5⟩)]) "a" = some (.good ⟨.str "x", 0⟩) ∧
    bucketGet (gcCycle 10 [("a", Blob.good ⟨.str "x", 0⟩),
      ("b", Blob.good ⟨.str "y", 5⟩)]) "b" = none ∧
    gcCycle 10 [("a", Blob.good ⟨.str "x", 0⟩), ("b", Blob.good ⟨.str "y", 5⟩),
      ("c", Blob.corrupt)] =
      [("a", Blob.good ⟨.str "x", 0⟩), ("b", Blob.good ⟨.str "y", 5⟩),
       ("c", Blob.corrupt)] := by
  have hnd : keysNodup [("a", Blob.good ⟨.str "x", 0⟩),
      ("b", Blob.good ⟨.str "y", 5⟩)] := by
    simp [keysNodup]
  have hnd3 : keysNodup [("a", Blob.good ⟨.str "x", 0⟩),
      ("b", Blob.good ⟨.str "y", 5⟩), ("c", Blob.corrupt)] := by
    simp [keysNodup]
  refine ⟨?_, ?_, ?_⟩
  · exact (c5_gc_cycle 10 _ hnd).2.2.1 "a" ⟨.str "x", 0⟩ rfl rfl
  · exact ((c5_gc_cycle 10 _ hnd).2.1 ["b"] rfl "b").trans (by decide)
  · exact (c5_gc_cycle 10 _ hnd3).2.2.2 .decodeError rfl

/-- C6: on every alive key of any variant, `Update(k, v)` succeeds and
replaces the stored value with the string `v` (so a hash key becomes a string
key), keeping the expiration instant and all other keys unchanged; it returns
KeyNotExists exactly on absent-or-dead keys. -/
theorem c6_update_overwrites (now : Nat) (st : Store) (k v : String) :
    (∀ i : Item, getItem now st k = .ok i →
      (Update now st k v).1 = .ok () ∧
      bucketGet (Update now st k v).2 k = some (encode ⟨.str v, i.expireTime⟩) ∧
      ∀ k1, k1 ≠ k → bucketGet (Update now st k v).2 k1 = bucketGet st k1) ∧
    ((Update now st k v).1 = .error .keyNotExists ↔ absentOrDead now st k) := by
  constructor
  · intro i hgi
    refine ⟨?_, ?_, ?_⟩
    · simp only [Update, hgi]
    · simp only [Update, hgi, saveItem]
      exact bucketGet_put_self st k _
    · intro k1 hk1
      simp only [Update, hgi, saveItem]
      exact bucketGet_put_ne st k k1 _ hk1
  · cases hgi : getItem now st k with
    | ok it =>
      simp only [Update, hgi]
      constructor
      · intro h
        cases h
      · intro h
        rw [← getItem_eq_keyNotExists_iff now st k] at h
        rw [hgi] at h
        cases h
    | error e =>
      simp only [Update, hgi]
      constructor
      · intro h
        cases h
        rw [← getItem_eq_keyNotExists_iff now st k]
        exact hgi
      · intro h
        rw [← getItem_eq_keyNotExists_iff now st k] at h
        rw [hgi] at h
        cases h
        rfl

/-- C6 witness: a live hash key becomes a string key, its expiration instant
(7, still in the future at read instant 5) being kept. -/
theorem c6_update_overwrites_witness :
    (Update 5 [("h", Blob.good ⟨.hash [("f", "1")], 7⟩)] "h" "s").1 = .ok () ∧
    bucketGet (Update 5 [("h", Blob.good ⟨.hash [("f", "1")], 7⟩)] "h" "s").2 "h" =
      some (encode ⟨.str "s", 7⟩) := by
  have h := (c6_update_overwrites 5 [("h", Blob.good ⟨.hash [("f", "1")], 7⟩)]
    "h" "s").1 ⟨.hash [("f", "1")], 7⟩ rfl
  exact ⟨h.1, h.2.1⟩

/-- C7: `HashSet(k, f, v)` on an absent or dead key silently creates a fresh
permanent (ttl = 0) hash with field `f = v`; on an alive non-hash key it
returns the hash TypeMismatch and changes nothing; on an alive hash key it
upserts field `f`. -/
theorem c7_hashset_upsert (now : Nat) (st : Store) (k f v : String) :
    (absentOrDead now st k →
      (HashSet now st k f v).1 = .ok () ∧
      bucketGet (HashSet now st k f v).2 k = some (encode ⟨.hash [(f, v)], 0⟩)) ∧
    (∀ i : Item, getItem now st k = .ok i → (∀ hh : Hash, i.value ≠ .hash hh) →
      (HashSet now st k f v).1 = .error .keyHashType ∧
      (HashSet now st k f v).2 = st) ∧
    (∀ (i : Item) (hh : Hash), getItem now st k = .ok i → i.value = .hash hh →
      (HashSet now st k f v).1 = .ok () ∧
      bucketGet (HashSet now st k f v).2 k =
        some (encode ⟨.hash (hashPut hh f v), i.expireTime⟩)) := by
  refine ⟨?_, ?_, ?_⟩
  · intro hdead
    rw [← getItem_eq_keyNotExists_iff now st k] at hdead
    have h0 : NewItem now (.hash []) 0 = ⟨.hash [], 0⟩ := by
      simp [NewItem, getExpireTime]
    constructor
    · simp only [HashSet, hdead, h0, Item.castHash]
    · simp only [HashSet, hdead, h0, Item.castHash, saveItem, hashPut]
      exact bucketGet_put_self st k _
  · intro i hgi hnh
    have hch : i.castHash = .error .keyHashType := by
      obtain ⟨val, exp⟩ := i
      cases val with
      | str s => rfl
      | hash hh => exact absurd rfl (hnh hh)
      | list l => rfl
    constructor
    · simp only [HashSet, hgi, hch]
    · simp only [HashSet, hgi, hch]
  · intro i hh hgi hv
    have hch : i.castHash = .ok hh := by
      simp [Item.castHash, hv]
    obtain ⟨val, exp⟩ := i
    cases hv
    constructor
    · simp only [HashSet, hgi, hch]
    · simp only [HashSet, hgi, hch, saveItem]
      exact bucketGet_put_self st k _

/-- C7 witness: `HashSet` on the empty bucket creates a fresh permanent hash
with the single field; on an alive string key it returns the hash
TypeMismatch and leaves the bucket unchanged; on an alive hash key it upserts
the field, keeping the expiration instant. -/
theorem c7_hashset_upsert_witness :
    ((HashSet 0 ([] : Store) "k" "f" "v").1 = .ok () ∧
      bucketGet (HashSet 0 ([] : Store) "k" "f" "v").2 "k" =
        some (encode ⟨.hash [("f", "v")], 0⟩)) ∧
    ((HashSet 0 [("s", Blob.good ⟨.str "x", 0⟩)] "s" "f" "v").1 =
        .error .keyHashType ∧
      (HashSet 0 [("s", Blob.good ⟨.str "x", 0⟩)] "s" "f" "v").2 =
        [("s", Blob.good ⟨.str "x", 0⟩)]) ∧
    ((HashSet 3 [("h", Blob.good ⟨.hash [("a", "1")], 9⟩)] "h" "a" "2").1 = .ok () ∧
      bucketGet (HashSet 3 [("h", Blob.good ⟨.hash [("a", "1")], 9⟩)] "h" "a" "2").2 "h" =
        some (encode ⟨.hash (hashPut [("a", "1")] "a" "2"), 9⟩)) := by
  refine ⟨?_, ?_, ?_⟩
  · exact (c7_hashset_upsert 0 [] "k" "f" "v").1 (Or.inl rfl)
  · exact (c7_hashset_upsert 0 [("s", Blob.good ⟨.str "x", 0⟩)] "s" "f" "v").2.1
      ⟨.str "x", 0⟩ rfl (fun hh h => Value.noConfusion h)
  · exact (c7_hashset_upsert 3 [("h", Blob.good ⟨.hash [("a", "1")], 9⟩)]
      "h" "a" "2").2.2 ⟨.hash [("a", "1")], 9⟩ [("a", "1")] rfl rfl

/-- C8: on an alive key, `Expire(k, ttl)` sets the expiration instant to
`ttl` seconds from now (`ttl = 0` making the Item immortal), keeps the value
and variant, and leaves every other key untouched; on an absent or dead key
it returns KeyNotExists and changes nothing. -/
theorem c8_expire_frame (now : Nat) (st : Store) (k : String) (ttl : Nat) :
    (∀ i : Item, getItem now st k = .ok i →
      (Expire now st k ttl).1 = .ok () ∧
      bucketGet (Expire now st k ttl).2 k =
        some (encode ⟨i.value, getExpireTime now ttl⟩) ∧
      (ttl = 0 → getExpireTime now ttl = 0) ∧
      (∀ (val : Value) (r : Nat), Item.isAlive ⟨val, getExpireTime now 0⟩ r = true) ∧
      ∀ k1, k1 ≠ k → bucketGet (Expire now st k ttl).2 k1 = bucketGet st k1) ∧
    (absentOrDead now st k →
      (Expire now st k ttl).1 = .error .keyNotExists ∧
      (Expire now st k ttl).2 = st) := by
  constructor
  · intro i hgi
    refine ⟨?_, ?_, ?_, ?_, ?_⟩
    · simp only [Expire, hgi]
    · simp only [Expire, hgi, saveItem, Item.setTTL]
      exact bucketGet_put_self st k _
    · intro h
      simp [getExpireTime, h]
    · intro val r
      simp [getExpireTime, Item.isAlive]
    · intro k1 hk1
      simp only [Expire, hgi, saveItem]
      exact bucketGet_put_ne st k k1 _ hk1
  · intro hdead
    rw [← getItem_eq_keyNotExists_iff now st k] at hdead
    constructor
    · simp only [Expire, hdead]
    · simp only [Expire, hdead]

/-- C8 witness: on a key alive at instant 5 (expiring at 9), `Expire` with
ttl 3 rewrites the expiration to 8 keeping the string value, leaves the other
key unchanged, and `Expire` on a dead key fails and changes nothing. -/
theorem c8_expire_frame_witness :
    ((Expire 5 [("k", Blob.good ⟨.str "x", 9⟩), ("o", Blob.good ⟨.str "y", 0⟩)]
        "k" 3).1 = .ok () ∧
      bucketGet (Expire 5 [("k", Blob.good ⟨.str "x", 9⟩),
        ("o", Blob.good ⟨.str "y", 0⟩)] "k" 3).2 "k" =
        some (encode ⟨.str "x", 8⟩) ∧
      bucketGet (Expire 5 [("k", Blob.good ⟨.str "x", 9⟩),
        ("o", Blob.good ⟨.str "y", 0⟩)] "k" 3).2 "o" =
        bucketGet [("k", Blob.good ⟨.str "x", 9⟩),
          ("o", Blob.good ⟨.str "y", 0⟩)] "o") ∧
    ((Expire 10 [("d", Blob.good ⟨.str "z", 4⟩)] "d" 3).1 =
        .error .keyNotExists ∧
      (Expire 10 [("d", Blob.good ⟨.str "z", 4⟩)] "d" 3).2 =
        [("d", Blob.good ⟨.str "z", 4⟩)]) := by
  constructor
  · have h := (c8_expire_frame 5 [("k", Blob.good ⟨.str "x", 9⟩),
      ("o", Blob.good ⟨.str "y", 0⟩)] "k" 3).1 ⟨.str "x", 9⟩ rfl
    exact ⟨h.1, h.2.1, h.2.2.2.2 "o" (by decide)⟩
  · exact (c8_expire_frame 10 [("d", Blob.good ⟨.str "z", 4⟩)] "d" 3).2
      (Or.inr ⟨⟨.str "z", 4⟩, rfl, rfl⟩)

theorem hashGetValue_error_cases (hh : Hash) (f : String) (e : Err)
    (h : hashGetValue hh f = .error e) : e = .fieldNotExist := by
  induction hh with
  | nil =>
    simp only [hashGetValue] at h
    cases h
    rfl
  | cons p rest ih =>
    obtain ⟨f1, v1⟩ := p
    by_cases h2 : f1 = f
    · simp only [hashGetValue, h2, if_true] at h
      cases h
    · simp only [hashGetValue, h2, if_false] at h
      exact ih h

/-- C9: liveness is checked before the type: on an absent-or-dead key every
key-requiring operation returns KeyNotExists whatever the stored variant, and
a TypeMismatch error is returned only when the key holds a present, alive
Item of the wrong variant. -/
theorem c9_liveness_before_type (now : Nat) (st : Store) (k f v : String)
    (ttl : Nat) :
    (absentOrDead now st k →
      Get now st k = .error .keyNotExists ∧
      (Update now st k v).1 = .error .keyNotExists ∧
      (Delete now st k).1 = .error .keyNotExists ∧
      (Expire now st k ttl).1 = .error .keyNotExists ∧
      HashGet now st k f = .error .keyNotExists ∧
      HashGetAll now st k = .error .keyNotExists ∧
      (HashDelete now st k f).1 = .error .keyNotExists ∧
      HashLen now st k = .error .keyNotExists ∧
      HashKeys now st k = .error .keyNotExists) ∧
    (Get now st k = .error .keyStringType →
      ∃ i : Item, getItem now st k = .ok i ∧ ∀ s, i.value ≠ .str s) ∧
    (HashGet now st k f = .error .keyHashType →
      ∃ i : Item, getItem now st k = .ok i ∧ ∀ hh : Hash, i.value ≠ .hash hh) ∧
    (HashGetAll now st k = .error .keyHashType →
      ∃ i : Item, getItem now st k = .ok i ∧ ∀ hh : Hash, i.value ≠ .hash hh) ∧
    ((HashDelete now st k f).1 = .error .keyHashType →
      ∃ i : Item, getItem now st k = .ok i ∧ ∀ hh : Hash, i.value ≠ .hash hh) ∧
    ((HashSet now st k f v).1 = .error .keyHashType →
      ∃ i : Item, getItem now st k = .ok i ∧ ∀ hh : Hash, i.value ≠ .hash hh) ∧
    (HashLen now st k = .error .keyHashType →
      ∃ i : Item, getItem now st k = .ok i ∧ ∀ hh : Hash, i.value ≠ .hash hh) ∧
    (HashKeys now st k = .error .keyHashType →
      ∃ i : Item, getItem now st k = .ok i ∧ ∀ hh : Hash, i.value ≠ .hash hh) := by
  have hcast : ∀ i : Item, i.castHash = .error .keyHashType →
      ∀ hh : Hash, i.value ≠ .hash hh := by
    intro i hch hh hv
    rw [show i.castHash = .ok hh by simp [Item.castHash, hv]] at hch
    cases hch
  refine ⟨?_, ?_, ?_, ?_, ?_, ?_, ?_, ?_⟩
  · intro hdead
    rw [← getItem_eq_keyNotExists_iff now st k] at hdead
    exact ⟨by simp only [Get, hdead], by simp only [Update, hdead],
      by simp only [Delete, hdead], by simp only [Expire, hdead],
      by simp only [HashGet, getHash, hdead], by simp only [HashGetAll, getHash, hdead],
      by simp only [HashDelete, hdead], by simp only [HashLen, getHash, hdead],
      by simp only [HashKeys, getHash, hdead]⟩
  · intro h
    cases hgi : getItem now st k with
    | error e =>
      simp only [Get, hgi] at h
      cases h
      rcases getItem_error_cases now st k _ hgi with h2 | h2 <;> cases h2
    | ok i =>
      simp only [Get, hgi] at h
      refine ⟨i, rfl, ?_⟩
      intro s hv
      rw [show i.castString = .ok s by simp [Item.castString, hv]] at h
      cases h
  · intro h
    cases hgi : getItem now st k with
    | error e =>
      simp only [HashGet, getHash, hgi] at h
      cases h
      rcases getItem_error_cases now st k _ hgi with h2 | h2 <;> cases h2
    | ok i =>
      simp only [HashGet, getHash, hgi] at h
      refine ⟨i, rfl, hcast i ?_⟩
      cases hch : i.castHash with
      | error e =>
        rw [hch] at h
        have h2 : (Except.error e : Except Err String) = .error .keyHashType := h
        cases h2
        rfl
      | ok hh =>
        exfalso
        rw [hch] at h
        have h2 : hashGetValue hh f = .error .keyHashType := h
        cases hashGetValue_error_cases hh f _ h2
  · intro h
    cases hgi : getItem now st k with
    | error e =>
      simp only [HashGetAll, getHash, hgi] at h
      cases h
      rcases getItem_error_cases now st k _ hgi with h2 | h2 <;> cases h2
    | ok i =>
      simp only [HashGetAll, getHash, hgi] at h
      exact ⟨i, rfl, hcast i h⟩
  · intro h
    cases hgi : getItem now st k with
    | error e =>
      simp only [HashDelete, hgi] at h
      cases h
      rcases getItem_error_cases now st k _ hgi with h2 | h2 <;> cases h2
    | ok i =>
      refine ⟨i, rfl, hcast i ?_⟩
      cases hch : i.castHash with
      | error e =>
        simp only [HashDelete, hgi, hch] at h
        cases h
        rfl
      | ok hh =>
        exfalso
        cases hgv : hashGetValue hh f with
        | error e2 =>
          simp only [HashDelete, hgi, hch, hgv] at h
          cases h
          cases hashGetValue_error_cases hh f _ hgv
        | ok w =>
          simp only [HashDelete, hgi, hch, hgv] at h
          cases h
  · intro h
    cases hgi : getItem now st k with
    | error e =>
      have h0 : NewItem now (.hash []) 0 = ⟨.hash [], 0⟩ := by
        simp [NewItem, getExpireTime]
      simp only [HashSet, hgi, h0, Item.castHash] at h
      cases h
    | ok i =>
      refine ⟨i, rfl, hcast i ?_⟩
      cases hch : i.castHash with
      | error e =>
        simp only [HashSet, hgi, hch] at h
        cases h
        rfl
      | ok hh =>
        simp only [HashSet, hgi, hch] at h
        cases h
  · intro h
    cases hgi : getItem now st k with
    | error e =>
      simp only [HashLen, getHash, hgi] at h
      cases h
      rcases getItem_error_cases now st k _ hgi with h2 | h2 <;> cases h2
    | ok i =>
      simp only [HashLen, getHash, hgi] at h
      refine ⟨i, rfl, hcast i ?_⟩
      cases hch : i.castHash with
      | error e =>
        rw [hch] at h
        have h2 : (Except.error e : Except Err Nat) = .error .keyHashType := h
        cases h2
        rfl
      | ok hh =>
        rw [hch] at h
        simp at h
  · intro h
    cases hgi : getItem now st k with
    | error e =>
      simp only [HashKeys, getHash, hgi] at h
      cases h
      rcases getItem_error_cases now st k _ hgi with h2 | h2 <;> cases h2
    | ok i =>
      simp only [HashKeys, getHash, hgi] at h
      refine ⟨i, rfl, hcast i ?_⟩
      cases hch : i.castHash with
      | error e =>
        rw [hch] at h
        have h2 : (Except.error e : Except Err (List String)) = .error .keyHashType := h
        cases h2
        rfl
      | ok hh =>
        rw [hch] at h
        simp at h

/-- C9 witness: on a bucket whose record under "k" is a hash dead at instant
10, every key-requiring operation returns KeyNotExists (never TypeMismatch);
and on a bucket holding an alive hash, `Get` returning the string
TypeMismatch exhibits an alive item of non-string variant. -/
theorem c9_liveness_before_type_witness :
    (Get 10 [("k", Blob.good ⟨.hash [], 3⟩)] "k" = .error .keyNotExists ∧
      (Update 10 [("k", Blob.good ⟨.hash [], 3⟩)] "k" "v").1 = .error .keyNotExists ∧
      (Delete 10 [("k", Blob.good ⟨.hash [], 3⟩)] "k").1 = .error .keyNotExists ∧
      (Expire 10 [("k", Blob.good ⟨.hash [], 3⟩)] "k" 7).1 = .error .keyNotExists ∧
      HashGet 10 [("k", Blob.good ⟨.hash [], 3⟩)] "k" "f" = .error .keyNotExists ∧
      HashGetAll 10 [("k", Blob.good ⟨.hash [], 3⟩)] "k" = .error .keyNotExists ∧
      (HashDelete 10 [("k", Blob.good ⟨.hash [], 3⟩)] "k" "f").1 =
        .error .keyNotExists ∧
      HashLen 10 [("k", Blob.good ⟨.hash [], 3⟩)] "k" = .error .keyNotExists ∧
      HashKeys 10 [("k", Blob.good ⟨.hash [], 3⟩)] "k" = .error .keyNotExists) ∧
    (∃ i : Item, getItem 10 [("h", Blob.good ⟨.hash [], 0⟩)] "h" = .ok i ∧
      ∀ s, i.value ≠ .str s) := by
  constructor
  · exact (c9_liveness_before_type 10 [("k", Blob.good ⟨.hash [], 3⟩)]
      "k" "f" "v" 7).1 (Or.inr ⟨⟨.hash [], 3⟩, rfl, rfl⟩)
  · exact (c9_liveness_before_type 10 [("h", Blob.good ⟨.hash [], 0⟩)]
      "h" "f" "v" 7).2.1 rfl

/-- C10: every operation that returns an error leaves the bucket unchanged;
`Delete` on a present-but-dead record returns KeyNotExists and keeps the
stale record, which only a (successful) sweep cycle reclaims; `HashDelete`
returning FieldNotExist leaves the hash intact. -/
theorem c10_error_frame (now : Nat) (st : Store) (k f v : String)
    (ttl : Nat) :
    (∀ e, (Set now st k v ttl).1 = .error e → (Set now st k v ttl).2 = st) ∧
    (∀ e, (Update now st k v).1 = .error e → (Update now st k v).2 = st) ∧
    (∀ e, (Delete now st k).1 = .error e → (Delete now st k).2 = st) ∧
    (∀ e, (Expire now st k ttl).1 = .error e → (Expire now st k ttl).2 = st) ∧
    (∀ e, (HashCreate now st k ttl).1 = .error e → (HashCreate now st k ttl).2 = st) ∧
    (∀ e, (HashSet now st k f v).1 = .error e → (HashSet now st k f v).2 = st) ∧
    (∀ e, (HashDelete now st k f).1 = .error e → (HashDelete now st k f).2 = st) ∧
    (∀ i : Item, bucketGet st k = some (.good i) → i.isAlive now = false →
      (Delete now st k).1 = .error .keyNotExists ∧
      bucketGet (Delete now st k).2 k = some (.good i) ∧
      (∀ ks, scanDead now st = .ok ks → bucketGet (gcCycle now st) k = none)) ∧
    (∀ (i : Item) (hh : Hash), getItem now st k = .ok i → i.value = .hash hh →
      hashGetValue hh f = .error .fieldNotExist →
      (HashDelete now st k f).1 = .error .fieldNotExist ∧
      (HashDelete now st k f).2 = st) := by
  refine ⟨?_, ?_, ?_, ?_, ?_, ?_, ?_, ?_, ?_⟩
  · intro e h
    cases hgi : getItem now st k with
    | ok i => simp only [Set, hgi]
    | error e2 =>
      simp only [Set, hgi] at h
      cases h
  · intro e h
    cases hgi : getItem now st k with
    | error e2 => simp only [Update, hgi]
    | ok i =>
      simp only [Update, hgi] at h
      cases h
  · intro e h
    cases hgi : getItem now st k with
    | error e2 => simp only [Delete, hgi]
    | ok i =>
      simp only [Delete, hgi] at h
      cases h
  · intro e h
    cases hgi : getItem now st k with
    | error e2 => simp only [Expire, hgi]
    | ok i =>
      simp only [Expire, hgi] at h
      cases h
  · intro e h
    cases hgi : getItem now st k with
    | ok i => simp only [HashCreate, hgi]
    | error e2 =>
      simp only [HashCreate, hgi] at h
      cases h
  · intro e h
    cases hgi : getItem now st k with
    | error e2 =>
      have h0 : NewItem now (.hash []) 0 = ⟨.hash [], 0⟩ := by
        simp [NewItem, getExpireTime]
      simp only [HashSet, hgi, h0, Item.castHash] at h
      cases h
    | ok i =>
      cases hch : i.castHash with
      | error e3 => simp only [HashSet, hgi, hch]
      | ok hh =>
        simp only [HashSet, hgi, hch] at h
        cases h
  · intro e h
    cases hgi : getItem now st k with
    | error e2 => simp only [HashDelete, hgi]
    | ok i =>
      cases hch : i.castHash with
      | error e3 => simp only [HashDelete, hgi, hch]
      | ok hh =>
        cases hgv : hashGetValue hh f with
        | error e4 => simp only [HashDelete, hgi, hch, hgv]
        | ok w =>
          simp only [HashDelete, hgi, hch, hgv] at h
          cases h
  · intro i hb hdead
    have hgi : getItem now st k = .error .keyNotExists :=
      (getItem_eq_keyNotExists_iff now st k).2 (Or.inr ⟨i, hb, hdead⟩)
    refine ⟨by simp only [Delete, hgi], by simp only [Delete, hgi]; exact hb, ?_⟩
    intro ks hscan
    have hmem : k ∈ ks := (mem_scanDead now st ks hscan k).2
      ⟨i, mem_of_bucketGet_eq_some st k _ hb, hdead⟩
    rw [gcCycle_deletes_dead now st ks hscan k, if_pos hmem]
  · intro i hh hgi hv hgv
    have hch : i.castHash = .ok hh := by
      simp [Item.castHash, hv]
    constructor
    · simp only [HashDelete, hgi, hch, hgv]
    · simp only [HashDelete, hgi, hch, hgv]

/-- C10 witness: `Set` on an alive key fails and leaves the bucket unchanged;
`Delete` on a bucket whose record under "k" died at instant 4 (read at 10)
fails, keeps the stale record, and the sweep then reclaims it; `HashDelete`
of a missing field fails with FieldNotExist and leaves the hash intact. -/
theorem c10_error_frame_witness :
    (Set 0 [("k", Blob.good ⟨.str "x", 0⟩)] "k" "y" 0).2 =
      [("k", Blob.good ⟨.str "x", 0⟩)] ∧
    ((Delete 10 [("k", Blob.good ⟨.str "x", 4⟩)] "k").1 = .error .keyNotExists ∧
      bucketGet (Delete 10 [("k", Blob.good ⟨.str "x", 4⟩)] "k").2 "k" =
        some (.good ⟨.str "x", 4⟩) ∧
      bucketGet (gcCycle 10 [("k", Blob.good ⟨.str "x", 4⟩)]) "k" = none) ∧
    ((HashDelete 0 [("h", Blob.good ⟨.hash [("a", "1")], 0⟩)] "h" "zz").1 =
        .error .fieldNotExist ∧
      (HashDelete 0 [("h", Blob.good ⟨.hash [("a", "1")], 0⟩)] "h" "zz").2 =
        [("h", Blob.good ⟨.hash [("a", "1")], 0⟩)]) := by
  refine ⟨?_, ?_, ?_⟩
  · exact (c10_error_frame 0 [("k", Blob.good ⟨.str "x", 0⟩)] "k" "f" "y" 0).1
      .keyAlreadyExists rfl
  · have h := (c10_error_frame 10 [("k", Blob.good ⟨.str "x", 4⟩)] "k" "f" "v"
      0).2.2.2.2.2.2.2.1 ⟨.str "x", 4⟩ rfl rfl
    exact ⟨h.1, h.2.1, h.2.2 ["k"] rfl⟩
  · exact (c10_error_frame 0 [("h", Blob.good ⟨.hash [("a", "1")], 0⟩)] "h"
      "zz" "v" 0).2.2.2.2.2.2.2.2 ⟨.hash [("a", "1")], 0⟩ [("a", "1")] rfl rfl rfl

end JCache
